import Mathlib

/-
Verification development for two modules of the NeuroMorphoVis fork:
the scene loading pass (neurorender/core/loading.py) and the skinning
mesh builder (nmv/builders/mesh/skinning_builder.py).

The Python modules are shallowly embedded below.  Pure computations become
Lean functions, in-place mutation becomes explicit state passing, fallible
indexing becomes Except, and the host (Blender) primitives consumed by the
modules are modelled from their contracts in the specification.
-/

namespace NMV

/-! ### String helpers mirroring the Python operations used by loading.py -/

/-- Characters of a list up to, and excluding, the first dot character; the
whole list when no dot occurs.  This is the character-level content of the
Python expression name.split(dot)[0]. -/
def takeUntilDot : List Char → List Char
  | [] => []
  | c :: rest => if c = '.' then [] else c :: takeUntilDot rest

/-- Python input_file_name.split(dot)[0]: the stem before the first dot. -/
def stemOf (s : String) : String := String.mk (takeUntilDot s.data)

/-- Whether the first list is a leading segment of the second. -/
def leadsWith : List Char → List Char → Bool
  | [], _ => true
  | _ :: _, [] => false
  | p :: ps, c :: rest => p = c && leadsWith ps rest

/-- Whether the pattern occurs as a contiguous segment of the list. -/
def hasSub (p : List Char) : List Char → Bool
  | [] => p.isEmpty
  | c :: rest => leadsWith p (c :: rest) || hasSub p rest

/-- Python substring membership test, pat in s. -/
def strContains (s pat : String) : Bool := hasSub pat.data s.data

/-! ### Scene objects and the host import primitives (loading.py) -/

/-- A mesh object living in the host scene.  Only the name and the
texture-space size are relevant to the loading pass. -/
structure SceneObject where
  name : String
  texspace_size : ℚ × ℚ × ℚ
deriving DecidableEq, Repr

/-- The host import primitive a loader invokes. -/
inductive ImportPrimitive where
  | importSceneObj
  | importMeshPly
  | loadBlendLibrary
deriving DecidableEq, Repr

/-- Observable events emitted by the loading pass.  The warning print in the
source has an unfilled percent-s placeholder, so the missing-file diagnostic
carries no path. -/
inductive Event where
  | warnMissing
  | importing (path : String)
  | invoke (prim : ImportPrimitive) (path : String)
  | linkToScene (objName : String)
  | errorUnrecognized (tpe : String)
deriving DecidableEq, Repr

/-- Modelled from the spec: the host filesystem and import primitives.
files lists the paths for which os.path.isfile is true, blendObjects gives
the objects stored in a blend file (possibly containing null entries, as
bpy data_dst.objects may), and importedName is the name the obj or ply
host primitive gives the newly created, selected object. -/
structure HostFs where
  files : List String
  blendObjects : String → List (Option SceneObject)
  importedName : String → String

/-- Embedding of load_obj_file (loading.py lines 42 to 74): check the file
exists, invoke the OBJ import primitive, rename the selected object to the
file-name stem, and return it. -/
def load_obj_file (fs : HostFs) (input_directory input_file_name : String) :
    Option SceneObject × List Event :=
  let file_path := input_directory ++ ("/") ++ input_file_name
  if fs.files.contains file_path then
    let mesh_object : SceneObject :=
      { name := fs.importedName file_path, texspace_size := (1, 1, 1) }
    let object_name := stemOf input_file_name
    (some { mesh_object with name := object_name },
     [Event.importing file_path,
      Event.invoke ImportPrimitive.importSceneObj file_path])
  else
    (none, [Event.warnMissing])

/-- Embedding of load_ply_file (loading.py lines 80 to 112): identical to
load_obj_file except that it invokes the PLY import primitive. -/
def load_ply_file (fs : HostFs) (input_directory input_file_name : String) :
    Option SceneObject × List Event :=
  let file_path := input_directory ++ ("/") ++ input_file_name
  if fs.files.contains file_path then
    let mesh_object : SceneObject :=
      { name := fs.importedName file_path, texspace_size := (1, 1, 1) }
    let object_name := stemOf input_file_name
    (some { mesh_object with name := object_name },
     [Event.importing file_path,
      Event.invoke ImportPrimitive.importMeshPly file_path])
  else
    (none, [Event.warnMissing])

/-- Embedding of load_object_from_blend_file (loading.py lines 118 to 161):
check the file exists, load every object of the blend library, normalize the
texture-space size to 10 on each non-null object whose name contains neither
soma nor cs, link the non-null objects into the scene, and return the whole
object list without renaming anything. -/
def load_object_from_blend_file (fs : HostFs)
    (input_directory input_file_name : String) :
    Option (List (Option SceneObject)) × List Event :=
  let file_path := input_directory ++ ("/") ++ input_file_name
  if fs.files.contains file_path then
    let objs := fs.blendObjects file_path
    let processed := objs.map (fun o =>
      match o with
      | none => none
      | some ob =>
        if !(strContains ob.name ("soma") || strContains ob.name ("cs")) then
          some { ob with texspace_size := (10, 10, 10) }
        else
          some ob)
    let linkEvents := processed.filterMap
      (fun o => o.map (fun ob => Event.linkToScene ob.name))
    (some processed,
     Event.importing file_path ::
       Event.invoke ImportPrimitive.loadBlendLibrary file_path :: linkEvents)
  else
    (none, [Event.warnMissing])

/-- A neuron entry of the configuration file: its gid (already through
Python str) and the membrane_meshes attribute the loading pass assigns. -/
structure Neuron where
  gid : String
  membrane_meshes : Option (List (Option SceneObject)) := none

/-- The loop body of load_neurons_membrane_meshes_into_scene (loading.py
lines 180 to 199), factored per neuron.  Note the source calls
load_obj_file for the ply input type and load_ply_file for the obj input
type. -/
def load_single_neuron (fs : HostFs) (input_directory input_type : String)
    (neuron : Neuron) : Neuron × List Event :=
  if input_type = "blend" then
    let input_file_name := ("neuron_") ++ neuron.gid ++ (".blend")
    let r := load_object_from_blend_file fs input_directory input_file_name
    ({ neuron with membrane_meshes := r.1 }, r.2)
  else if input_type = "ply" then
    let input_file_name := ("neuron_") ++ neuron.gid ++ (".ply")
    let r := load_obj_file fs input_directory input_file_name
    ({ neuron with membrane_meshes := some [r.1] }, r.2)
  else if input_type = "obj" then
    let input_file_name := ("neuron_") ++ neuron.gid ++ (".obj")
    let r := load_ply_file fs input_directory input_file_name
    ({ neuron with membrane_meshes := some [r.1] }, r.2)
  else
    (neuron, [Event.errorUnrecognized input_type])

/-- Embedding of load_neurons_membrane_meshes_into_scene (loading.py lines
167 to 199): iterate over the neurons list, loading each neuron's membrane
meshes per the requested input type. -/
def load_neurons_membrane_meshes_into_scene (fs : HostFs)
    (input_directory : String) (neurons_list : List Neuron)
    (input_type : String) : List Neuron × List Event :=
  match neurons_list with
  | [] => ([], [])
  | neuron :: rest =>
    let r := load_single_neuron fs input_directory input_type neuron
    let rs := load_neurons_membrane_meshes_into_scene fs input_directory rest input_type
    (r.1 :: rs.1, r.2 ++ rs.2)

/-! ### Skeleton data model (skinning_builder.py) -/

/-- Vertex positions.  The source stores 3-D float coordinates; every claim
settled here is structural (counts, indices, radii, connectivity), so
positions are kept symbolic.  The constructor nearSoma stands for the float
computation point minus 0.01 times the normalized direction from the origin
(skinning_builder.py lines 300 to 301), ofSample tags the stored position
of a morphology sample, and initial is the position of the vertex made by
create_vertex. -/
inductive Pt where
  | initial
  | ofSample (id : Nat)
  | nearSoma (p : Pt)
deriving DecidableEq, Repr

/-- A morphology sample: its position, radius, and the transient arbor
index assigned by the per-arbor sample-index pass. -/
structure Sample where
  point : Pt
  radius : ℚ
  arbor_idx : Nat
deriving DecidableEq, Repr

mutual

/-- A morphology section: its ordered sample list, its branching order and
its child sections.  Rootness is positional (the Python source asks the
parent pointer); the traversals below thread an explicit is-root flag. -/
inductive Sec : Type where
  | node (samples : List Sample) (branching_order : Nat) (children : SecList)

/-- The ordered child list of a section. -/
inductive SecList : Type where
  | nil
  | cons (hd : Sec) (tl : SecList)

end

def Sec.samples : Sec → List Sample
  | .node s _ _ => s

def Sec.branching_order : Sec → Nat
  | .node _ b _ => b

def Sec.children : Sec → SecList
  | .node _ _ c => c

/-! ### The bmesh graph and the host extrusion primitives -/

/-- Modelled from the spec: the transient bmesh vertex and edge graph built
by nmv.bmeshi, which is not part of the sources here.  Vertices are listed
in creation order; an edge is the pair of the source vertex index and the
newly created vertex index. -/
structure Bmesh where
  verts : List Pt
  edges : List (Nat × Nat)
deriving DecidableEq, Repr

/-- Modelled from the spec: nmv.bmeshi.create_vertex, a new single-vertex
graph. -/
def create_vertex : Bmesh :=
  { verts := [Pt.initial], edges := [] }

/-- Modelled from the spec: nmv.bmeshi.ops.extrude_vertex_towards_point,
which appends one vertex and one edge and preserves earlier vertex
indices. -/
def extrude_vertex_towards_point (b : Bmesh) (idx : Nat) (p : Pt) : Bmesh :=
  { verts := b.verts ++ [p], edges := b.edges ++ [(idx, b.verts.length)] }

/-- The loop body of extrude_section (skinning_builder.py lines 202 to
205): for i below the sample count minus one, extrude from the vertex at
samples i arbor index toward the point of sample i plus one. -/
def extrude_section_loop (b : Bmesh) : List Sample → Bmesh
  | [] => b
  | [_] => b
  | s0 :: s1 :: rest =>
    extrude_section_loop (extrude_vertex_towards_point b s0.arbor_idx s1.point) (s1 :: rest)

/-- Embedding of extrude_section (skinning_builder.py lines 188 to 205). -/
def extrude_section (arbor_bmesh_object : Bmesh) (sec : Sec) : Bmesh :=
  extrude_section_loop arbor_bmesh_object sec.samples

mutual

/-- Embedding of extrude_arbor (skinning_builder.py lines 210 to 231):
return unchanged when the branching order limit is hit, otherwise extrude
the section and recurse into the children in order. -/
def extrude_arbor (b : Bmesh) (root : Sec) (max_branching_order : Nat) : Bmesh :=
  match root with
  | .node samples bo children =>
    if bo > max_branching_order then b
    else extrude_arbor_children
      (extrude_section b (Sec.node samples bo children)) children max_branching_order

def extrude_arbor_children (b : Bmesh) (l : SecList) (max_branching_order : Nat) : Bmesh :=
  match l with
  | .nil => b
  | .cons hd tl =>
    extrude_arbor_children (extrude_arbor b hd max_branching_order) tl max_branching_order

end

/-! ### The per-arbor sample-index pass -/

/-- Samples re-indexed consecutively from a starting counter. -/
def indexSamplesFrom (c : Nat) : List Sample → List Sample
  | [] => []
  | s :: rest => { s with arbor_idx := c } :: indexSamplesFrom (c + 1) rest

mutual

/-- Modelled from the spec: nmv.builders.update_samples_indices_per_arbor
is not part of the sources here.  Per the spec, the pass walks the pruned
tree pre-order with a global counter: a pruned section is left untouched, a
root section (inherited is none) gets fresh strictly increasing indices for
all its samples, and a non-root section gives its first sample the index of
its parent's last sample (it duplicates that sample) and fresh indices to
the rest.  The function returns the re-indexed section and the advanced
counter. -/
def update_samples_indices_sec (s : Sec) (inherited : Option Nat) (c : Nat)
    (max_branching_order : Nat) : Sec × Nat :=
  match s with
  | .node samples bo children =>
    if bo > max_branching_order then (Sec.node samples bo children, c)
    else
      match inherited with
      | none =>
        let samples2 := indexSamplesFrom c samples
        let c2 := c + samples.length
        let lastIdx := c + samples.length - 1
        let r := update_samples_indices_list children (some lastIdx) c2 max_branching_order
        (Sec.node samples2 bo r.1, r.2)
      | some f =>
        match samples with
        | [] =>
          let r := update_samples_indices_list children (some f) c max_branching_order
          (Sec.node [] bo r.1, r.2)
        | s0 :: rest =>
          let samples2 := { s0 with arbor_idx := f } :: indexSamplesFrom c rest
          let c2 := c + rest.length
          let lastIdx := if rest.length = 0 then f else c + rest.length - 1
          let r := update_samples_indices_list children (some lastIdx) c2 max_branching_order
          (Sec.node samples2 bo r.1, r.2)

def update_samples_indices_list (l : SecList) (inherited : Option Nat) (c : Nat)
    (max_branching_order : Nat) : SecList × Nat :=
  match l with
  | .nil => (SecList.nil, c)
  | .cons hd tl =>
    let r := update_samples_indices_sec hd inherited c max_branching_order
    let r2 := update_samples_indices_list tl inherited r.2 max_branching_order
    (SecList.cons r.1 r2.1, r2.2)

end

/-! ### The radius assignment pass -/

/-- Embedding of update_section_samples_radii (skinning_builder.py lines
127 to 154): starting at sample index 0 for a root section and 1
otherwise, write each sample's radius into both components of the skin
vertex addressed by the sample's arbor index. -/
def update_section_samples_radii (skin_radii : Nat → ℚ × ℚ) (sec : Sec)
    (is_root : Bool) : Nat → ℚ × ℚ :=
  let starting_index := if is_root then 0 else 1
  (sec.samples.drop starting_index).foldl
    (fun acc smp => Function.update acc smp.arbor_idx (smp.radius, smp.radius)) skin_radii

mutual

/-- Embedding of update_arbor_samples_radii (skinning_builder.py lines 159
to 183): return unchanged when the branching order limit is hit, otherwise
update the section's sample radii and recurse into the children. -/
def update_arbor_samples_radii (skin_radii : Nat → ℚ × ℚ) (root : Sec)
    (max_branching_order : Nat) (is_root : Bool) : Nat → ℚ × ℚ :=
  match root with
  | .node samples bo children =>
    if bo > max_branching_order then skin_radii
    else
      update_arbor_children_radii
        (update_section_samples_radii skin_radii (Sec.node samples bo children) is_root)
        children max_branching_order

def update_arbor_children_radii (skin_radii : Nat → ℚ × ℚ) (l : SecList)
    (max_branching_order : Nat) : Nat → ℚ × ℚ :=
  match l with
  | .nil => skin_radii
  | .cons hd tl =>
    update_arbor_children_radii
      (update_arbor_samples_radii skin_radii hd max_branching_order false) tl max_branching_order

end

/-! ### Arbor mesh creation -/

/-- Modelled from the spec: the temporary placeholder radius every skin
vertex carries right after the skin modifier is added, before the radius
assignment pass overwrites it (Blender's default skin vertex radius). -/
def temporary_skin_radius : ℚ := 1 / 4

/-- The finalized arbor mesh: the converted graph, its per-vertex skin
radii at the moment the skin modifier is applied, the smoothing level, the
shade-smooth flag and the assigned material. -/
structure ArborMesh where
  name : String
  verts : List Pt
  edges : List (Nat × Nat)
  skin_radii : Nat → ℚ × ℚ
  smooth_level : Nat
  shaded_smooth : Bool
  material : Nat

/-- Embedding of create_arbor_mesh (skinning_builder.py lines 264 to 348):
run the sample-index pass from counter 2, create the initial vertex,
extrude the two auxiliary vertices (toward the near-soma point and toward
the first sample), extrude the arbor recursively, convert to a mesh with a
skin modifier, set the radii of vertices 0 and 1 to the first sample's
radius, run the radius assignment pass, and finalize (apply, smooth level
2, shade smooth, material).  The unconditional access to the first sample
(line 300 of the source) is the Except error path. -/
def create_arbor_mesh (arbor : Sec) (max_branching_order : Nat)
    (arbor_name : String) (arbor_material : Nat) : Except String ArborMesh :=
  let indexed := (update_samples_indices_sec arbor none 2 max_branching_order).1
  let arbor_bmesh_object := create_vertex
  match indexed.samples with
  | [] => Except.error ("IndexError: arbor.samples is empty")
  | s0 :: _ =>
    let p0 := Pt.nearSoma s0.point
    let b1 := extrude_vertex_towards_point arbor_bmesh_object 0 p0
    let b2 := extrude_vertex_towards_point b1 1 s0.point
    let b3 := extrude_arbor b2 indexed max_branching_order
    let radii0 : Nat → ℚ × ℚ := fun _ => (temporary_skin_radius, temporary_skin_radius)
    let radii1 := Function.update radii0 0 (s0.radius, s0.radius)
    let radii2 := Function.update radii1 1 (s0.radius, s0.radius)
    let radii3 := update_arbor_samples_radii radii2 indexed max_branching_order true
    Except.ok
      { name := arbor_name, verts := b3.verts, edges := b3.edges,
        skin_radii := radii3, smooth_level := 2, shaded_smooth := true,
        material := arbor_material }

/-! ### build_arbors -/

/-- The morphology read by the builder: an optional apical dendrite, the
basal dendrites and an optional axon. -/
structure Morphology where
  apical_dendrite : Option Sec
  dendrites : List Sec
  axon : Option Sec

/-- The morphology options consumed by build_arbors. -/
structure MorphOptions where
  ignore_apical_dendrite : Bool
  ignore_basal_dendrites : Bool
  ignore_axon : Bool
  apical_dendrite_branch_order : Nat
  basal_dendrites_branch_order : Nat
  axon_branch_order : Nat

/-- The builder state build_arbors reads: the morphology, the options and
the per-arbor-type material lists. -/
structure Builder where
  morphology : Morphology
  options : MorphOptions
  apical_dendrites_materials : List Nat
  basal_dendrites_materials : List Nat
  axon_materials : List Nat

/-- The meshes build_arbors attaches back onto the morphology. -/
structure BuiltArbors where
  apical : Option ArborMesh
  basals : List ArborMesh
  axon : Option ArborMesh

/-- Element 0 of a material list, as the source's subscript expression:
an empty list is an index-out-of-range error. -/
def get_material (mats : List Nat) : Except String Nat :=
  match mats with
  | [] => Except.error ("IndexError: materials list index out of range")
  | m :: _ => Except.ok m

/-- The basal dendrite loop of build_arbors (skinning_builder.py lines 379
to 392). -/
def build_basal_arbors (bld : Builder) (i : Nat) : List Sec → Except String (List ArborMesh)
  | [] => Except.ok []
  | d :: rest => do
    let mat ← get_material bld.basal_dendrites_materials
    let m ← create_arbor_mesh d bld.options.basal_dendrites_branch_order
      (("BasalDendrite_") ++ toString i) mat
    let ms ← build_basal_arbors bld (i + 1) rest
    pure (m :: ms)

/-- Embedding of build_arbors (skinning_builder.py lines 353 to 409): for
each arbor kind that is present and not ignored, fetch element 0 of the
corresponding material list (evaluated before the call, as in Python
argument evaluation) and create the arbor mesh. -/
def build_arbors (bld : Builder) : Except String BuiltArbors := do
  let apical ←
    if !bld.options.ignore_apical_dendrite then
      match bld.morphology.apical_dendrite with
      | some arbor => do
        let mat ← get_material bld.apical_dendrites_materials
        let m ← create_arbor_mesh arbor bld.options.apical_dendrite_branch_order
          ("ApicalDendrite") mat
        pure (some m)
      | none => pure none
    else pure none
  let basals ←
    if !bld.options.ignore_basal_dendrites then
      build_basal_arbors bld 0 bld.morphology.dendrites
    else pure []
  let axon ←
    if !bld.options.ignore_axon then
      match bld.morphology.axon with
      | some arbor => do
        let mat ← get_material bld.axon_materials
        let m ← create_arbor_mesh arbor bld.options.axon_branch_order ("Axon") mat
        pure (some m)
      | none => pure none
    else pure none
  pure { apical := apical, basals := basals, axon := axon }

/-! ### The skeleton repair pass (verify_morphology_skeleton) -/

/-- The operations of nmv.skeleton.ops that verify_morphology_skeleton can
apply to the morphology; the operations themselves live outside the sources
here, so the pass is recorded as the sequence of operations it invokes. -/
inductive SkeletonOp where
  | remove_samples_inside_soma
  | resample_sections
  | update_arbors_connection_to_soma
  | label_primary_and_secondary_sections_based_on_angles
  | label_primary_and_secondary_sections_based_on_radii
deriving DecidableEq, Repr

/-- Embedding of verify_morphology_skeleton (skinning_builder.py lines 90
to 122) as the sequence of skeleton operations it applies: remove the
samples inside the soma, re-sample only for the smooth edge style, verify
the arbors' connection to the soma, and finally invoke the angle-based
primary and secondary labeling operation (the source comment above that
call says the labeling is based on radii, but the invoked operation is the
angle-based one). -/
def verify_morphology_skeleton (smooth_edges : Bool) : List SkeletonOp :=
  [SkeletonOp.remove_samples_inside_soma]
    ++ (if smooth_edges then [SkeletonOp.resample_sections] else [])
    ++ [SkeletonOp.update_arbors_connection_to_soma,
        SkeletonOp.label_primary_and_secondary_sections_based_on_angles]

/-! ### Claim-side auxiliary definitions -/

mutual

/-- The visited-sample count of the claims: a pruned section contributes
nothing, a visited root section contributes all of its samples, and a
visited non-root section contributes its samples from index 1 onward. -/
def visited_sample_count (s : Sec) (max_branching_order : Nat) (is_root : Bool) : Nat :=
  match s with
  | .node samples bo children =>
    if bo > max_branching_order then 0
    else (if is_root then samples.length else samples.length - 1)
      + visited_sample_count_children children max_branching_order

def visited_sample_count_children (l : SecList) (max_branching_order : Nat) : Nat :=
  match l with
  | .nil => 0
  | .cons hd tl =>
    visited_sample_count hd max_branching_order false
      + visited_sample_count_children tl max_branching_order

end

mutual

/-- The arbor indices of the visited samples, in traversal order: all
samples of a visited root section, the samples from index 1 onward of a
visited non-root section, nothing for a pruned section. -/
def visited_idx_list (s : Sec) (max_branching_order : Nat) (is_root : Bool) : List Nat :=
  match s with
  | .node samples bo children =>
    if bo > max_branching_order then []
    else ((if is_root then samples else samples.drop 1).map Sample.arbor_idx)
      ++ visited_idx_list_children children max_branching_order

def visited_idx_list_children (l : SecList) (max_branching_order : Nat) : List Nat :=
  match l with
  | .nil => []
  | .cons hd tl =>
    visited_idx_list hd max_branching_order false
      ++ visited_idx_list_children tl max_branching_order

end

mutual

/-- Checks, over the visited part of the tree, that every non-root section's
first sample carries the expected inherited arbor index, namely the arbor
index of its parent's last sample. -/
def first_idx_ok (s : Sec) (expected : Option Nat) (max_branching_order : Nat) : Bool :=
  match s with
  | .node samples bo children =>
    if bo > max_branching_order then true
    else
      (match expected with
       | none => true
       | some f => (samples.head?.map Sample.arbor_idx) == some f) &&
      first_idx_ok_children children
        (some (((samples.getLast?).map Sample.arbor_idx).getD (expected.getD 0)))
        max_branching_order

def first_idx_ok_children (l : SecList) (expected : Option Nat) (max_branching_order : Nat) : Bool :=
  match l with
  | .nil => true
  | .cons hd tl =>
    first_idx_ok hd expected max_branching_order
      && first_idx_ok_children tl expected max_branching_order

end

mutual

/-- Every section of the tree owns at least one sample. -/
def wf_nonempty (s : Sec) : Bool :=
  match s with
  | .node samples _ children => !samples.isEmpty && wf_nonempty_children children

def wf_nonempty_children (l : SecList) : Bool :=
  match l with
  | .nil => true
  | .cons hd tl => wf_nonempty hd && wf_nonempty_children tl

end

mutual

/-- Every child's branching order is its parent's plus one. -/
def wf_orders (s : Sec) : Bool :=
  match s with
  | .node _ bo children => wf_orders_children children (bo + 1)

def wf_orders_children (l : SecList) (b : Nat) : Bool :=
  match l with
  | .nil => true
  | .cons hd tl =>
    (hd.branching_order == b) && wf_orders hd && wf_orders_children tl b

end

mutual

/-- The subtree of sections whose branching order stays within the limit:
none when the root itself exceeds it. -/
def pruneSec (max_branching_order : Nat) (s : Sec) : Option Sec :=
  match s with
  | .node samples bo children =>
    if bo > max_branching_order then none
    else some (Sec.node samples bo (pruneChildren max_branching_order children))

def pruneChildren (max_branching_order : Nat) (l : SecList) : SecList :=
  match l with
  | .nil => SecList.nil
  | .cons hd tl =>
    match pruneSec max_branching_order hd with
    | none => pruneChildren max_branching_order tl
    | some h2 => SecList.cons h2 (pruneChildren max_branching_order tl)

end

mutual

/-- Unbounded extrusion over a whole tree, used to state that the bounded
walk processes exactly the pruned tree. -/
def extrude_all (b : Bmesh) (s : Sec) : Bmesh :=
  match s with
  | .node samples bo children =>
    extrude_all_children (extrude_section b (Sec.node samples bo children)) children

def extrude_all_children (b : Bmesh) (l : SecList) : Bmesh :=
  match l with
  | .nil => b
  | .cons hd tl => extrude_all_children (extrude_all b hd) tl

end

mutual

/-- Unbounded radius assignment over a whole tree. -/
def update_all_samples_radii (skin_radii : Nat → ℚ × ℚ) (s : Sec) (is_root : Bool) :
    Nat → ℚ × ℚ :=
  match s with
  | .node samples bo children =>
    update_all_children_radii
      (update_section_samples_radii skin_radii (Sec.node samples bo children) is_root) children

def update_all_children_radii (skin_radii : Nat → ℚ × ℚ) (l : SecList) : Nat → ℚ × ℚ :=
  match l with
  | .nil => skin_radii
  | .cons hd tl => update_all_children_radii (update_all_samples_radii skin_radii hd false) tl

end

mutual

/-- Membership of a section in a tree: it is the root or lies in some
child subtree. -/
def SecIn (t : Sec) : Sec → Prop
  | .node samples bo children => t = Sec.node samples bo children ∨ SecInChildren t children

def SecInChildren (t : Sec) : SecList → Prop
  | .nil => False
  | .cons hd tl => SecIn t hd ∨ SecInChildren t tl

end

/-- Membership in an optional tree. -/
def SecInOpt (t : Sec) : Option Sec → Prop
  | none => False
  | some s => SecIn t s

/-- Sample index chain shape consumed by the extrusion loop: the head
sample carries the given first index and every following sample carries the
next fresh counter value. -/
def ChainIdx : Nat → Nat → List Sample → Prop
  | _, _, [] => True
  | f, c, s :: rest => s.arbor_idx = f ∧ ChainIdx c (c + 1) rest

/-- The bmesh invariant maintained by every extrusion in this module: the
vertex count exceeds the edge count by one, the edge targets are the vertex
indices 1, 2 and so on in creation order (so every vertex except the
initial one is created by exactly one extrusion), and every edge points
from an older vertex to a newer one (so the graph is a tree with no
cycles). -/
def okB (b : Bmesh) : Prop :=
  b.verts.length = b.edges.length + 1 ∧
  b.edges.map Prod.snd = List.range' 1 b.edges.length ∧
  ∀ e ∈ b.edges, e.1 < e.2

mutual

/-- The branching orders of every section of a tree, pre-order. -/
def all_orders (s : Sec) : List Nat :=
  match s with
  | .node _ bo children => bo :: all_orders_children children

def all_orders_children (l : SecList) : List Nat :=
  match l with
  | .nil => []
  | .cons hd tl => all_orders hd ++ all_orders_children tl

end

/-! ## Theorems -/

/-! ### Scene import pass: C1, C7, C8 -/

/-- C1: the claim says load_neurons_membrane_meshes_into_scene loads
neuron_gid.ply with the PLY import primitive and neuron_gid.obj with the
OBJ import primitive.  The code has the two loader calls swapped: the ply
branch invokes the OBJ primitive (bpy.ops.import_scene.obj) on the ply
file, and the obj branch invokes the PLY primitive (bpy.ops.import_mesh.ply)
on the obj file.  This theorem evaluates the batch loader at a concrete
failing input for both formats. -/
theorem C1_ply_and_obj_import_primitives_swapped :
    (load_neurons_membrane_meshes_into_scene
        ⟨[("meshes/neuron_7.ply"), ("meshes/neuron_7.obj")], fun _ => [], fun p => p⟩
        ("meshes") [{ gid := "7" }] ("ply")).2
      = [Event.importing ("meshes/neuron_7.ply"),
         Event.invoke ImportPrimitive.importSceneObj ("meshes/neuron_7.ply")]
    ∧ (load_neurons_membrane_meshes_into_scene
        ⟨[("meshes/neuron_7.ply"), ("meshes/neuron_7.obj")], fun _ => [], fun p => p⟩
        ("meshes") [{ gid := "7" }] ("obj")).2
      = [Event.importing ("meshes/neuron_7.obj"),
         Event.invoke ImportPrimitive.importMeshPly ("meshes/neuron_7.obj")] := by
  constructor <;> decide

/-- C2: the claim says the skeleton repair pass labels primary and
secondary sections based on the relative radii of sibling branches, not on
angles.  The labeling operation verify_morphology_skeleton actually invokes
is the angle-based one, for both edge styles; the radius-based operation is
never applied. -/
theorem C2_labeling_operation_is_angle_based :
    ∀ smooth_edges : Bool,
      SkeletonOp.label_primary_and_secondary_sections_based_on_angles
          ∈ verify_morphology_skeleton smooth_edges
      ∧ SkeletonOp.label_primary_and_secondary_sections_based_on_radii
          ∉ verify_morphology_skeleton smooth_edges := by
  decide

/-- C7: a scene-import operation on a path that is not a file logs the
missing-file diagnostic and returns a null result for each of the three
loaders, and the batch loader processes every neuron independently of the
others, so one missing file cannot prevent the remaining neurons from
being processed. -/
theorem C7_missing_file_none_and_batch_continues :
    (∀ (fs : HostFs) (dir nm : String),
        fs.files.contains (dir ++ ("/") ++ nm) = false →
          load_obj_file fs dir nm = (none, [Event.warnMissing])
          ∧ load_ply_file fs dir nm = (none, [Event.warnMissing])
          ∧ load_object_from_blend_file fs dir nm = (none, [Event.warnMissing]))
    ∧ ∀ (fs : HostFs) (dir tpe : String) (ns : List Neuron),
        (load_neurons_membrane_meshes_into_scene fs dir ns tpe).1
          = ns.map (fun n => (load_single_neuron fs dir tpe n).1) := by
  constructor
  · intro fs dir nm h
    have hm : dir ++ ("/") ++ nm ∉ fs.files := by simpa using h
    refine ⟨?_, ?_, ?_⟩ <;>
      simp [load_obj_file, load_ply_file, load_object_from_blend_file, hm]
  · intro fs dir tpe ns
    induction ns with
    | nil => rfl
    | cons n rest ih =>
      simp [load_neurons_membrane_meshes_into_scene, ih]

/-- C7 witness: a concrete missing file yields a null result with the
diagnostic, and a concrete mixed batch of three neurons still assigns
every neuron its own result. -/
theorem C7_missing_file_witness :
    (load_obj_file ⟨[("d/neuron_2.obj")], fun _ => [], fun p => p⟩ ("d") ("neuron_1.obj")
        = (none, [Event.warnMissing]))
    ∧ (load_neurons_membrane_meshes_into_scene
          ⟨[("d/neuron_2.obj")], fun _ => [], fun p => p⟩ ("d")
          [{ gid := "1" }, { gid := "2" }, { gid := "3" }] ("obj")).1
      = [{ gid := "1" }, { gid := "2" }, { gid := "3" }].map
          (fun n => (load_single_neuron ⟨[("d/neuron_2.obj")], fun _ => [], fun p => p⟩
            ("d") ("obj") n).1) := by
  constructor
  · exact ((C7_missing_file_none_and_batch_continues.1
      ⟨[("d/neuron_2.obj")], fun _ => [], fun p => p⟩ ("d") ("neuron_1.obj")) (by decide)).1
  · exact C7_missing_file_none_and_batch_continues.2
      ⟨[("d/neuron_2.obj")], fun _ => [], fun p => p⟩ ("d") ("obj")
      [{ gid := "1" }, { gid := "2" }, { gid := "3" }]

/-- C8 counterexample: the claim says every successful import, including
the blend multi-object format, renames the loaded objects to a
deterministic name derived from the neuron identifier.  Two successful
blend imports for the same identifier return objects whose names differ
because they come from the file contents: the blend loader renames
nothing. -/
theorem C8_counterexample_blend_objects_not_renamed :
    ((load_object_from_blend_file
        ⟨[("d/neuron_5.blend")],
         fun _ => [some { name := "alpha_obj", texspace_size := (1, 1, 1) }],
         fun p => p⟩ ("d") ("neuron_5.blend")).1
      = some [some { name := "alpha_obj", texspace_size := (10, 10, 10) }])
    ∧ ((load_object_from_blend_file
        ⟨[("d/neuron_5.blend")],
         fun _ => [some { name := "beta_obj", texspace_size := (1, 1, 1) }],
         fun p => p⟩ ("d") ("neuron_5.blend")).1
      = some [some { name := "beta_obj", texspace_size := (10, 10, 10) }])
    ∧ ("alpha_obj" : String) ≠ ("beta_obj") := by
  refine ⟨?_, ?_, ?_⟩ <;> decide

/-- C8 amended: a successful obj or ply import renames the loaded object to
the file-name stem (which is identifier-derived for the batch loader's
neuron_gid file names), but a successful blend import returns the loaded
objects with the names stored in the file, unrenamed. -/
theorem C8_amended_renaming (fs : HostFs) (dir nm : String) :
    (∀ r evs, load_obj_file fs dir nm = (some r, evs) → r.name = stemOf nm)
    ∧ (∀ r evs, load_ply_file fs dir nm = (some r, evs) → r.name = stemOf nm)
    ∧ (∀ objs evs, load_object_from_blend_file fs dir nm = (some objs, evs) →
        objs.map (Option.map SceneObject.name)
          = (fs.blendObjects (dir ++ ("/") ++ nm)).map (Option.map SceneObject.name)) := by
  refine ⟨?_, ?_, ?_⟩
  · intro r evs h
    by_cases hc : dir ++ ("/") ++ nm ∈ fs.files
    · simp [load_obj_file, hc] at h
      rw [← h.1]
    · simp [load_obj_file, hc] at h
  · intro r evs h
    by_cases hc : dir ++ ("/") ++ nm ∈ fs.files
    · simp [load_ply_file, hc] at h
      rw [← h.1]
    · simp [load_ply_file, hc] at h
  · intro objs evs h
    by_cases hc : dir ++ ("/") ++ nm ∈ fs.files
    · simp [load_object_from_blend_file, hc] at h
      rw [← h.1, List.map_map]
      refine List.map_congr_left ?_
      intro o _
      cases o with
      | none => rfl
      | some ob =>
        simp only [Function.comp_apply]
        split <;> simp
    · simp [load_object_from_blend_file, hc] at h

/-- C8 amended witness: a concrete successful obj import is renamed to the
file-name stem. -/
theorem C8_amended_witness :
    ({ name := "neuron_9", texspace_size := (1, 1, 1) } : SceneObject).name
      = stemOf ("neuron_9.obj") :=
  (C8_amended_renaming ⟨[("d/neuron_9.obj")], fun _ => [], fun p => p⟩
      ("d") ("neuron_9.obj")).1
    { name := "neuron_9", texspace_size := (1, 1, 1) }
    [Event.importing ("d/neuron_9.obj"),
     Event.invoke ImportPrimitive.importSceneObj ("d/neuron_9.obj")]
    (by decide)

/-! ### build_arbors material indexing: C9 -/

/-- C9: build_arbors reads element 0 of the per-arbor material lists with
no emptiness check.  Under the precondition that the list is non-empty the
indexing succeeds, and for a concrete builder whose axon is present while
axon_materials is empty, build_arbors reaches the out-of-bounds branch. -/
theorem C9_material_zero_indexing :
    (∀ mats : List Nat, mats ≠ [] → ∃ m, get_material mats = Except.ok m)
    ∧ build_arbors
        { morphology :=
            { apical_dendrite := none, dendrites := [],
              axon := some (Sec.node [{ point := Pt.ofSample 0, radius := 1, arbor_idx := 0 }] 0 SecList.nil) },
          options :=
            { ignore_apical_dendrite := false, ignore_basal_dendrites := false,
              ignore_axon := false, apical_dendrite_branch_order := 1,
              basal_dendrites_branch_order := 1, axon_branch_order := 1 },
          apical_dendrites_materials := [1],
          basal_dendrites_materials := [1],
          axon_materials := [] }
      = Except.error ("IndexError: materials list index out of range") := by
  constructor
  · intro mats h
    cases mats with
    | nil => exact absurd rfl h
    | cons m tl => exact ⟨m, rfl⟩
  · rfl

/-- C9 witness: the indexing succeeds on a concrete non-empty material
list. -/
theorem C9_material_zero_indexing_witness : ∃ m, get_material [7] = Except.ok m :=
  C9_material_zero_indexing.1 [7] (by decide)

/-! ### Zero-sample arbors: C3 -/

/-- C3 counterexample: the claim says create_arbor_mesh on an arbor with
zero samples returns a minimal single-vertex graph with a diagnostic and
never raises.  On a concrete zero-sample arbor the function instead fails
with the index error raised by the unconditional access to the first
sample (line 300 of the source), producing no graph at all. -/
theorem C3_counterexample_zero_sample_arbor_raises :
    create_arbor_mesh (Sec.node [] 0 SecList.nil) 5 ("Axon") 0
      = Except.error ("IndexError: arbor.samples is empty") := by
  rfl

/-- C3 amended: for every arbor with zero samples, create_arbor_mesh fails
with the index error of the unconditional first-sample access instead of
returning a minimal single-vertex graph; the zero-sample case is not
handled gracefully. -/
theorem C3_amended_zero_sample_arbor_errors (arbor : Sec) (maxBO : Nat)
    (nm : String) (mat : Nat) (h : arbor.samples = []) :
    create_arbor_mesh arbor maxBO nm mat
      = Except.error ("IndexError: arbor.samples is empty") := by
  cases arbor with
  | node samples bo children =>
    simp only [Sec.samples] at h
    subst h
    by_cases hbo : bo > maxBO <;>
      simp [create_arbor_mesh, update_samples_indices_sec, indexSamplesFrom, Sec.samples, hbo]

/-- C3 amended witness: a concrete zero-sample arbor with a child section
fails with the index error. -/
theorem C3_amended_witness :
    create_arbor_mesh (Sec.node [] 1 (SecList.cons (Sec.node [] 2 SecList.nil) SecList.nil))
        0 ("Dendrite") 3
      = Except.error ("IndexError: arbor.samples is empty") :=
  C3_amended_zero_sample_arbor_errors _ 0 ("Dendrite") 3 rfl

/-! ### Radius writes per section: C6 -/

/-- Folding the radius writes over samples whose arbor indices all differ
from v leaves the skin radius at v unchanged. -/
theorem foldl_radius_update_not_mem (skin_radii : Nat → ℚ × ℚ) (l : List Sample) (v : Nat)
    (h : v ∉ l.map Sample.arbor_idx) :
    l.foldl (fun (acc : Nat → ℚ × ℚ) smp =>
        Function.update acc smp.arbor_idx (smp.radius, smp.radius)) skin_radii v
      = skin_radii v := by
  induction l generalizing skin_radii with
  | nil => rfl
  | cons s rest ih =>
    simp only [List.map_cons, List.mem_cons, not_or] at h
    rw [List.foldl_cons, ih _ h.2, Function.update_noteq h.1]

/-- When the written arbor indices are pairwise distinct, every sample's
write survives the fold: the skin radius at its arbor index is its own
radius, in both components. -/
theorem foldl_radius_update_mem (skin_radii : Nat → ℚ × ℚ) (l : List Sample)
    (hnd : (l.map Sample.arbor_idx).Nodup) (smp : Sample) (hm : smp ∈ l) :
    l.foldl (fun (acc : Nat → ℚ × ℚ) s =>
        Function.update acc s.arbor_idx (s.radius, s.radius)) skin_radii smp.arbor_idx
      = (smp.radius, smp.radius) := by
  induction l generalizing skin_radii with
  | nil => cases hm
  | cons s rest ih =>
    simp only [List.map_cons, List.nodup_cons] at hnd
    rw [List.foldl_cons]
    rcases List.mem_cons.mp hm with heq | hm2
    · subst heq
      rw [foldl_radius_update_not_mem _ rest _ hnd.1, Function.update_same]
    · exact ih _ hnd.2 hm2

/-- C6: update_section_samples_radii starts at sample index 0 for a root
section and at sample index 1 otherwise (skipping the non-root first
sample), and writes each visited sample's radius into both symmetric
radius components of the skin vertex addressed by the sample's arbor
index, leaving every other vertex untouched. -/
theorem C6_section_radii_written_at_arbor_indices
    (skin_radii : Nat → ℚ × ℚ) (sec : Sec) (is_root : Bool) :
    (((sec.samples.drop (if is_root then 0 else 1)).map Sample.arbor_idx).Nodup →
      ∀ smp ∈ sec.samples.drop (if is_root then 0 else 1),
        update_section_samples_radii skin_radii sec is_root smp.arbor_idx
          = (smp.radius, smp.radius))
    ∧ (∀ v, v ∉ (sec.samples.drop (if is_root then 0 else 1)).map Sample.arbor_idx →
        update_section_samples_radii skin_radii sec is_root v = skin_radii v) := by
  constructor
  · intro hnd smp hm
    exact foldl_radius_update_mem skin_radii _ hnd smp hm
  · intro v hv
    exact foldl_radius_update_not_mem skin_radii _ v hv

/-- C6 witness: on a concrete non-root section the pass writes the second
sample's radius at its arbor index and skips the first sample. -/
theorem C6_witness :
    update_section_samples_radii (fun _ => (0, 0))
        (Sec.node [{ point := Pt.ofSample 0, radius := 3, arbor_idx := 2 },
                   { point := Pt.ofSample 1, radius := 5, arbor_idx := 3 }] 1 SecList.nil)
        false 3
      = (5, 5)
    ∧ update_section_samples_radii (fun _ => (0, 0))
        (Sec.node [{ point := Pt.ofSample 0, radius := 3, arbor_idx := 2 },
                   { point := Pt.ofSample 1, radius := 5, arbor_idx := 3 }] 1 SecList.nil)
        false 2
      = (0, 0) := by
  constructor
  · exact (C6_section_radii_written_at_arbor_indices (fun _ => (0, 0)) _ false).1 (by decide)
      { point := Pt.ofSample 1, radius := 5, arbor_idx := 3 } (by decide)
  · exact (C6_section_radii_written_at_arbor_indices (fun _ => (0, 0)) _ false).2 2 (by decide)

/-! ### Bmesh extrusion invariants -/

/-- One extrusion from an existing vertex preserves the bmesh tree
invariant and grows the vertex list by one. -/
theorem okB_extrude (b : Bmesh) (idx : Nat) (p : Pt) (hok : okB b)
    (hidx : idx < b.verts.length) :
    okB (extrude_vertex_towards_point b idx p)
    ∧ (extrude_vertex_towards_point b idx p).verts.length = b.verts.length + 1 := by
  obtain ⟨h1, h2, h3⟩ := hok
  refine ⟨⟨?_, ?_, ?_⟩, ?_⟩
  · simp [extrude_vertex_towards_point, h1]
  · simp only [extrude_vertex_towards_point, List.map_append, List.map_cons, List.map_nil,
      List.length_append, List.length_cons, List.length_nil, h2, h1]
    rw [List.range'_1_concat]
    simp [Nat.add_comm]
  · intro e he
    simp only [extrude_vertex_towards_point, List.mem_append, List.mem_singleton] at he
    rcases he with he | rfl
    · exact h3 e he
    · exact hidx
  · simp [extrude_vertex_towards_point]

/-- Samples freshly re-indexed from a counter form an index chain. -/
theorem chain_indexSamplesFrom (c : Nat) (l : List Sample) :
    ChainIdx c (c + 1) (indexSamplesFrom c l) := by
  induction l generalizing c with
  | nil => trivial
  | cons s rest ih => exact ⟨rfl, ih (c + 1)⟩

/-- Re-indexing preserves the number of samples. -/
theorem length_indexSamplesFrom (c : Nat) (l : List Sample) :
    (indexSamplesFrom c l).length = l.length := by
  induction l generalizing c with
  | nil => rfl
  | cons s rest ih => simp [indexSamplesFrom, ih]

/-- The arbor indices of freshly re-indexed samples are the consecutive
counter values. -/
theorem map_idx_indexSamplesFrom (c : Nat) (l : List Sample) :
    (indexSamplesFrom c l).map Sample.arbor_idx = List.range' c l.length := by
  induction l generalizing c with
  | nil => rfl
  | cons s rest ih =>
    simp only [indexSamplesFrom, List.map_cons, ih (c + 1), List.length_cons]
    rw [List.range'_succ]

/-- The last freshly re-indexed sample of a non-empty list carries the last
consumed counter value. -/
theorem getLast_idx_indexSamplesFrom (c : Nat) (l : List Sample) (h : l ≠ []) :
    ((indexSamplesFrom c l).getLast?).map Sample.arbor_idx = some (c + l.length - 1) := by
  induction l generalizing c with
  | nil => exact absurd rfl h
  | cons s rest ih =>
    cases rest with
    | nil => simp [indexSamplesFrom]
    | cons s2 rest2 =>
      simp only [indexSamplesFrom, List.getLast?_cons_cons]
      have h2 := ih (c + 1) (by simp)
      simp only [indexSamplesFrom] at h2
      rw [h2]
      congr 1
      simp only [List.length_cons]
      omega

/-- The extrusion loop of extrude_section over chain-indexed samples:
starting from a bmesh satisfying the tree invariant whose vertex count is
the fresh counter, with the head index pointing at an existing vertex, the
loop preserves the invariant and creates one vertex per sample beyond the
first. -/
theorem extrude_section_loop_spec (l : List Sample) (f c : Nat) (b : Bmesh)
    (hok : okB b) (hlen : b.verts.length = c) (hf : f < c)
    (hchain : ChainIdx f c l) :
    okB (extrude_section_loop b l)
    ∧ (extrude_section_loop b l).verts.length = c + (l.length - 1) := by
  induction l generalizing f c b with
  | nil => exact ⟨hok, by simpa [extrude_section_loop] using hlen⟩
  | cons s0 rest ih =>
    cases rest with
    | nil => exact ⟨hok, by simpa [extrude_section_loop] using hlen⟩
    | cons s1 rest2 =>
      obtain ⟨hs0, hchain2⟩ := hchain
      have hidx : s0.arbor_idx < b.verts.length := by rw [hs0, hlen]; exact hf
      have hext := okB_extrude b s0.arbor_idx s1.point hok hidx
      have hrec := ih c (c + 1) (extrude_vertex_towards_point b s0.arbor_idx s1.point)
        hext.1 (by rw [hext.2, hlen]) (Nat.lt_succ_self c) hchain2
      refine ⟨?_, ?_⟩
      · exact hrec.1
      · rw [show extrude_section_loop b (s0 :: s1 :: rest2)
              = extrude_section_loop (extrude_vertex_towards_point b s0.arbor_idx s1.point)
                  (s1 :: rest2) from rfl, hrec.2]
        simp only [List.length_cons]
        omega

/-! ### The sample-index pass: counter arithmetic -/

mutual

/-- The index pass advances its counter by exactly the visited-sample
count of the claims. -/
theorem pass_counter_sec (s : Sec) (inh : Option Nat) (c maxBO : Nat) :
    (update_samples_indices_sec s inh c maxBO).2
      = c + visited_sample_count s maxBO inh.isNone := by
  cases s with
  | node samples bo children =>
    by_cases hbo : bo > maxBO
    · simp [update_samples_indices_sec, visited_sample_count, hbo]
    · cases inh with
      | none =>
        simp only [update_samples_indices_sec, if_neg hbo]
        rw [pass_counter_list children (c + samples.length - 1) (c + samples.length) maxBO]
        simp [visited_sample_count, hbo]
        omega
      | some f =>
        cases samples with
        | nil =>
          simp only [update_samples_indices_sec, if_neg hbo]
          rw [pass_counter_list children f c maxBO]
          simp [visited_sample_count, hbo]
        | cons s0 rest =>
          simp only [update_samples_indices_sec, if_neg hbo]
          rw [pass_counter_list children (if rest.length = 0 then f else c + rest.length - 1)
              (c + rest.length) maxBO]
          simp [visited_sample_count, hbo]
          omega

theorem pass_counter_list (l : SecList) (f c maxBO : Nat) :
    (update_samples_indices_list l (some f) c maxBO).2
      = c + visited_sample_count_children l maxBO := by
  cases l with
  | nil => simp [update_samples_indices_list, visited_sample_count_children]
  | cons hd tl =>
    simp only [update_samples_indices_list]
    rw [pass_counter_list tl f (update_samples_indices_sec hd (some f) c maxBO).2 maxBO,
        pass_counter_sec hd (some f) c maxBO]
    simp only [visited_sample_count_children, Option.isNone_some]
    omega

end

/-! ### The sample-index pass: visited indices are consecutive -/

mutual

/-- After the index pass, the visited samples' arbor indices are exactly
the consecutive counter values, in traversal order. -/
theorem pass_idx_sec (s : Sec) (inh : Option Nat) (c maxBO : Nat) :
    visited_idx_list (update_samples_indices_sec s inh c maxBO).1 maxBO inh.isNone
      = List.range' c (visited_sample_count s maxBO inh.isNone) := by
  cases s with
  | node samples bo children =>
    by_cases hbo : bo > maxBO
    · simp [update_samples_indices_sec, visited_idx_list, visited_sample_count, hbo]
    · cases inh with
      | none =>
        have hl := pass_idx_list children (c + samples.length - 1) (c + samples.length) maxBO
        simp only [update_samples_indices_sec, if_neg hbo, Option.isNone_none,
          visited_idx_list, visited_sample_count]
        rw [hl]
        simp only [if_true, map_idx_indexSamplesFrom]
        rw [List.range'_append_1]
        congr 1
        omega
      | some f =>
        cases samples with
        | nil =>
          have hl := pass_idx_list children f c maxBO
          simp only [update_samples_indices_sec, if_neg hbo, Option.isNone_some,
            visited_idx_list, visited_sample_count]
          rw [hl]
          simp [hbo]
        | cons s0 rest =>
          have hl := pass_idx_list children (if rest.length = 0 then f else c + rest.length - 1)
              (c + rest.length) maxBO
          simp only [update_samples_indices_sec, if_neg hbo, Option.isNone_some,
            visited_idx_list, visited_sample_count]
          rw [hl]
          simp only [Bool.false_eq_true, if_false, List.drop_succ_cons, List.drop_zero,
            map_idx_indexSamplesFrom, List.length_cons]
          rw [List.range'_append_1]
          congr 1
          omega

theorem pass_idx_list (l : SecList) (f c maxBO : Nat) :
    visited_idx_list_children (update_samples_indices_list l (some f) c maxBO).1 maxBO
      = List.range' c (visited_sample_count_children l maxBO) := by
  cases l with
  | nil => simp [update_samples_indices_list, visited_idx_list_children,
      visited_sample_count_children]
  | cons hd tl =>
    have h1 := pass_idx_sec hd (some f) c maxBO
    have h2 := pass_idx_list tl f (update_samples_indices_sec hd (some f) c maxBO).2 maxBO
    have h3 := pass_counter_sec hd (some f) c maxBO
    simp only [Option.isNone_some] at h1 h3
    simp only [update_samples_indices_list, visited_idx_list_children,
      visited_sample_count_children]
    rw [h1, h2, h3]
    rw [List.range'_append_1]
    congr 1
    omega

end

/-! ### The sample-index pass: non-root first samples inherit the parent's
last index -/

/-- Unfolding of the last re-indexed arbor index used by first_idx_ok. -/
theorem getLast_idx_cons (s0 : Sample) (f c : Nat) (rest : List Sample) :
    ((({ s0 with arbor_idx := f } :: indexSamplesFrom c rest).getLast?).map
        Sample.arbor_idx).getD f
      = if rest.length = 0 then f else c + rest.length - 1 := by
  cases rest with
  | nil => rfl
  | cons r rest2 =>
    simp only [indexSamplesFrom, List.getLast?_cons_cons]
    have h2 := getLast_idx_indexSamplesFrom c (r :: rest2) (by simp)
    simp only [indexSamplesFrom] at h2
    rw [h2]
    simp

/-- The last re-indexed arbor index of a freshly indexed non-empty list,
under any default. -/
theorem getD_getLast_idx_fresh (c d : Nat) (l : List Sample) (h : l ≠ []) :
    (((indexSamplesFrom c l).getLast?).map Sample.arbor_idx).getD d = c + l.length - 1 := by
  rw [getLast_idx_indexSamplesFrom c l h]
  rfl

mutual

/-- C4 helper: after the index pass, every visited non-root section's first
sample carries its parent's last sample's arbor index. -/
theorem pass_first_ok_sec (s : Sec) (inh : Option Nat) (c maxBO : Nat)
    (hwf : wf_nonempty s = true) :
    first_idx_ok (update_samples_indices_sec s inh c maxBO).1 inh maxBO = true := by
  cases s with
  | node samples bo children =>
    simp only [wf_nonempty, Bool.and_eq_true] at hwf
    obtain ⟨hne, hwfc⟩ := hwf
    by_cases hbo : bo > maxBO
    · simp [update_samples_indices_sec, first_idx_ok, hbo]
    · cases samples with
      | nil => simp at hne
      | cons s0 rest =>
        cases inh with
        | none =>
          simp only [update_samples_indices_sec, if_neg hbo, first_idx_ok, Bool.true_and]
          rw [getD_getLast_idx_fresh c _ (s0 :: rest) (by simp)]
          exact pass_first_ok_list children (c + (s0 :: rest).length - 1)
            (c + (s0 :: rest).length) maxBO hwfc
        | some f =>
          simp only [update_samples_indices_sec, if_neg hbo, first_idx_ok,
            List.head?_cons, Option.map_some, Option.getD_some, Bool.and_eq_true, beq_iff_eq]
          refine ⟨rfl, ?_⟩
          rw [getLast_idx_cons s0 f c rest]
          exact pass_first_ok_list children (if rest.length = 0 then f else c + rest.length - 1)
            (c + rest.length) maxBO hwfc

theorem pass_first_ok_list (l : SecList) (f c maxBO : Nat)
    (hwf : wf_nonempty_children l = true) :
    first_idx_ok_children (update_samples_indices_list l (some f) c maxBO).1 (some f) maxBO
      = true := by
  cases l with
  | nil => simp [update_samples_indices_list, first_idx_ok_children]
  | cons hd tl =>
    simp only [wf_nonempty_children, Bool.and_eq_true] at hwf
    simp only [update_samples_indices_list, first_idx_ok_children, Bool.and_eq_true]
    exact ⟨pass_first_ok_sec hd (some f) c maxBO hwf.1,
           pass_first_ok_list tl f (update_samples_indices_sec hd (some f) c maxBO).2 maxBO hwf.2⟩

end

/-! ### Extrusion over an indexed tree preserves the tree invariant -/

mutual

/-- Extruding an arbor whose samples were just indexed from counter c, out
of a bmesh aligned with the counter, preserves the bmesh tree invariant
and leaves the vertex count equal to the advanced counter. -/
theorem pass_extrude_okB_sec (s : Sec) (inh : Option Nat) (c maxBO : Nat) (b : Bmesh)
    (hok : okB b)
    (hpre : match inh with
      | some f => b.verts.length = c ∧ f < c
      | none => b.verts.length = c + 1 ∧ s.branching_order ≤ maxBO ∧ s.samples ≠ []) :
    okB (extrude_arbor b (update_samples_indices_sec s inh c maxBO).1 maxBO)
    ∧ (extrude_arbor b (update_samples_indices_sec s inh c maxBO).1 maxBO).verts.length
        = (update_samples_indices_sec s inh c maxBO).2 := by
  cases s with
  | node samples bo children =>
    by_cases hbo : bo > maxBO
    · cases inh with
      | none =>
        simp only [Sec.branching_order] at hpre
        exact absurd hpre.2.1 (by omega)
      | some f =>
        have hred : update_samples_indices_sec (Sec.node samples bo children) (some f) c maxBO
            = (Sec.node samples bo children, c) := by
          simp [update_samples_indices_sec, hbo]
        rw [hred]
        have hext : extrude_arbor b (Sec.node samples bo children) maxBO = b := by
          simp [extrude_arbor, hbo]
        rw [hext]
        exact ⟨hok, hpre.1⟩
    · cases inh with
      | some f =>
        obtain ⟨hblen, hflt⟩ := hpre
        cases samples with
        | nil =>
          have hlist := pass_extrude_okB_list children f c maxBO b hok hblen hflt
          have hred : update_samples_indices_sec (Sec.node [] bo children) (some f) c maxBO
              = (Sec.node [] bo (update_samples_indices_list children (some f) c maxBO).1,
                 (update_samples_indices_list children (some f) c maxBO).2) := by
            simp [update_samples_indices_sec, hbo]
          rw [hred]
          have hext : extrude_arbor b
                (Sec.node [] bo (update_samples_indices_list children (some f) c maxBO).1) maxBO
              = extrude_arbor_children b
                  (update_samples_indices_list children (some f) c maxBO).1 maxBO := by
            simp [extrude_arbor, extrude_section, extrude_section_loop, Sec.samples, hbo]
          rw [hext]
          exact hlist
        | cons s0 rest =>
          have hchain : ChainIdx f c ({ s0 with arbor_idx := f } :: indexSamplesFrom c rest) :=
            ⟨rfl, chain_indexSamplesFrom c rest⟩
          have hloop := extrude_section_loop_spec
            ({ s0 with arbor_idx := f } :: indexSamplesFrom c rest) f c b hok hblen hflt hchain
          have hlen1 : (extrude_section_loop b
                ({ s0 with arbor_idx := f } :: indexSamplesFrom c rest)).verts.length
              = c + rest.length := by
            rw [hloop.2]
            simp only [List.length_cons, length_indexSamplesFrom]
            omega
          have hlast : (if rest.length = 0 then f else c + rest.length - 1) < c + rest.length := by
            split <;> omega
          have hlist := pass_extrude_okB_list children
            (if rest.length = 0 then f else c + rest.length - 1) (c + rest.length) maxBO
            (extrude_section_loop b ({ s0 with arbor_idx := f } :: indexSamplesFrom c rest))
            hloop.1 hlen1 hlast
          have hred : update_samples_indices_sec (Sec.node (s0 :: rest) bo children) (some f) c maxBO
              = (Sec.node ({ s0 with arbor_idx := f } :: indexSamplesFrom c rest) bo
                   (update_samples_indices_list children
                     (some (if rest.length = 0 then f else c + rest.length - 1))
                     (c + rest.length) maxBO).1,
                 (update_samples_indices_list children
                     (some (if rest.length = 0 then f else c + rest.length - 1))
                     (c + rest.length) maxBO).2) := by
            simp [update_samples_indices_sec, hbo]
          rw [hred]
          have hext : extrude_arbor b
                (Sec.node ({ s0 with arbor_idx := f } :: indexSamplesFrom c rest) bo
                  (update_samples_indices_list children
                    (some (if rest.length = 0 then f else c + rest.length - 1))
                    (c + rest.length) maxBO).1) maxBO
              = extrude_arbor_children
                  (extrude_section_loop b ({ s0 with arbor_idx := f } :: indexSamplesFrom c rest))
                  (update_samples_indices_list children
                    (some (if rest.length = 0 then f else c + rest.length - 1))
                    (c + rest.length) maxBO).1 maxBO := by
            simp [extrude_arbor, extrude_section, Sec.samples, hbo]
          rw [hext]
          exact hlist
      | none =>
        obtain ⟨hblen, hble, hsne⟩ := hpre
        simp only [Sec.samples] at hsne
        cases samples with
        | nil => exact absurd rfl hsne
        | cons s0 rest =>
          have hchain : ChainIdx c (c + 1) (indexSamplesFrom c (s0 :: rest)) :=
            chain_indexSamplesFrom c (s0 :: rest)
          have hloop := extrude_section_loop_spec (indexSamplesFrom c (s0 :: rest)) c (c + 1) b
            hok hblen (Nat.lt_succ_self c) hchain
          have hlen1 : (extrude_section_loop b (indexSamplesFrom c (s0 :: rest))).verts.length
              = c + (s0 :: rest).length := by
            rw [hloop.2, length_indexSamplesFrom]
            simp only [List.length_cons]
            omega
          have hlast : c + (s0 :: rest).length - 1 < c + (s0 :: rest).length := by
            simp only [List.length_cons]
            omega
          have hlist := pass_extrude_okB_list children (c + (s0 :: rest).length - 1)
            (c + (s0 :: rest).length) maxBO
            (extrude_section_loop b (indexSamplesFrom c (s0 :: rest)))
            hloop.1 hlen1 hlast
          have hred : update_samples_indices_sec (Sec.node (s0 :: rest) bo children) none c maxBO
              = (Sec.node (indexSamplesFrom c (s0 :: rest)) bo
                   (update_samples_indices_list children
                     (some (c + (s0 :: rest).length - 1)) (c + (s0 :: rest).length) maxBO).1,
                 (update_samples_indices_list children
                     (some (c + (s0 :: rest).length - 1)) (c + (s0 :: rest).length) maxBO).2) := by
            simp [update_samples_indices_sec, hbo]
          rw [hred]
          have hext : extrude_arbor b
                (Sec.node (indexSamplesFrom c (s0 :: rest)) bo
                  (update_samples_indices_list children
                    (some (c + (s0 :: rest).length - 1)) (c + (s0 :: rest).length) maxBO).1) maxBO
              = extrude_arbor_children
                  (extrude_section_loop b (indexSamplesFrom c (s0 :: rest)))
                  (update_samples_indices_list children
                    (some (c + (s0 :: rest).length - 1)) (c + (s0 :: rest).length) maxBO).1 maxBO := by
            simp [extrude_arbor, extrude_section, Sec.samples, hbo]
          rw [hext]
          exact hlist

theorem pass_extrude_okB_list (l : SecList) (f c maxBO : Nat) (b : Bmesh)
    (hok : okB b) (hlen : b.verts.length = c) (hf : f < c) :
    okB (extrude_arbor_children b (update_samples_indices_list l (some f) c maxBO).1 maxBO)
    ∧ (extrude_arbor_children b
        (update_samples_indices_list l (some f) c maxBO).1 maxBO).verts.length
        = (update_samples_indices_list l (some f) c maxBO).2 := by
  cases l with
  | nil =>
    simp only [update_samples_indices_list, extrude_arbor_children]
    exact ⟨hok, hlen⟩
  | cons hd tl =>
    have hsec := pass_extrude_okB_sec hd (some f) c maxBO b hok ⟨hlen, hf⟩
    have hcnt := pass_counter_sec hd (some f) c maxBO
    have hmono : c ≤ (update_samples_indices_sec hd (some f) c maxBO).2 := by omega
    have htl := pass_extrude_okB_list tl f (update_samples_indices_sec hd (some f) c maxBO).2 maxBO
      (extrude_arbor b (update_samples_indices_sec hd (some f) c maxBO).1 maxBO)
      hsec.1 hsec.2 (lt_of_lt_of_le hf hmono)
    simp only [update_samples_indices_list, extrude_arbor_children]
    exact htl

end

/-! ### Reduction of create_arbor_mesh on a well-formed root -/

/-- On an arbor whose root has branching order 0 and at least one sample,
create_arbor_mesh reduces to the successful branch: the index pass from
counter 2, the two auxiliary extrusions, the recursive extrusion, the two
auxiliary radius writes and the radius pass. -/
theorem create_arbor_mesh_reduce (s0 : Sample) (rest : List Sample) (children : SecList)
    (maxBO : Nat) (nm : String) (mat : Nat) :
    create_arbor_mesh (Sec.node (s0 :: rest) 0 children) maxBO nm mat
      = Except.ok
          { name := nm,
            verts := (extrude_arbor
                (extrude_vertex_towards_point
                  (extrude_vertex_towards_point create_vertex 0 (Pt.nearSoma s0.point))
                  1 s0.point)
                (update_samples_indices_sec (Sec.node (s0 :: rest) 0 children) none 2 maxBO).1
                maxBO).verts,
            edges := (extrude_arbor
                (extrude_vertex_towards_point
                  (extrude_vertex_towards_point create_vertex 0 (Pt.nearSoma s0.point))
                  1 s0.point)
                (update_samples_indices_sec (Sec.node (s0 :: rest) 0 children) none 2 maxBO).1
                maxBO).edges,
            skin_radii := update_arbor_samples_radii
                (Function.update
                  (Function.update (fun _ => (temporary_skin_radius, temporary_skin_radius))
                    0 (s0.radius, s0.radius))
                  1 (s0.radius, s0.radius))
                (update_samples_indices_sec (Sec.node (s0 :: rest) 0 children) none 2 maxBO).1
                maxBO true,
            smooth_level := 2, shaded_smooth := true, material := mat } := by
  rfl

/-! ### C4: vertex counts, tree shape and sample-to-vertex correspondence -/

/-- C4: for a well-formed arbor (root order 0, every section non-empty),
create_arbor_mesh succeeds and the resulting graph has exactly the
claimed vertex count (visited samples plus the two auxiliary vertices),
one more vertex than edges, every vertex except the initial one created by
exactly one extrusion (the edge targets are 1, 2, and so on, so no first
sample of a non-root section is ever extruded a second time), every edge
pointing from an older vertex to a newer one (a tree, no cycles), the
visited samples carrying exactly the arbor indices 2 and upward in
traversal order (a bijection between visited samples and non-auxiliary
vertices), and every visited non-root section's first sample sharing its
parent's last sample's vertex. -/
theorem C4_curve_construction_graph (arbor : Sec) (maxBO : Nat) (nm : String) (mat : Nat)
    (hwf : wf_nonempty arbor = true) (hroot : arbor.branching_order = 0) :
    ∃ m, create_arbor_mesh arbor maxBO nm mat = Except.ok m
      ∧ m.verts.length = visited_sample_count arbor maxBO true + 2
      ∧ m.edges.length + 1 = m.verts.length
      ∧ m.edges.map Prod.snd = List.range' 1 m.edges.length
      ∧ (∀ e ∈ m.edges, e.1 < e.2)
      ∧ visited_idx_list (update_samples_indices_sec arbor none 2 maxBO).1 maxBO true
          = List.range' 2 (visited_sample_count arbor maxBO true)
      ∧ first_idx_ok (update_samples_indices_sec arbor none 2 maxBO).1 none maxBO = true := by
  cases arbor with
  | node samples bo children =>
    simp only [Sec.branching_order] at hroot
    subst hroot
    have hwf2 := hwf
    simp only [wf_nonempty, Bool.and_eq_true] at hwf2
    obtain ⟨hne, hwfc⟩ := hwf2
    cases samples with
    | nil => simp at hne
    | cons s0 rest =>
      have hok2 : okB (extrude_vertex_towards_point
          (extrude_vertex_towards_point create_vertex 0 (Pt.nearSoma s0.point)) 1 s0.point) := by
        refine ⟨rfl, rfl, ?_⟩
        have hE : (extrude_vertex_towards_point
            (extrude_vertex_towards_point create_vertex 0 (Pt.nearSoma s0.point))
            1 s0.point).edges = [(0, 1), (1, 2)] := rfl
        rw [hE]
        intro e he
        simp only [List.mem_cons, List.not_mem_nil, or_false] at he
        rcases he with rfl | rfl <;> decide
      have hokD := pass_extrude_okB_sec (Sec.node (s0 :: rest) 0 children) none 2 maxBO
        (extrude_vertex_towards_point
          (extrude_vertex_towards_point create_vertex 0 (Pt.nearSoma s0.point)) 1 s0.point)
        hok2 ⟨rfl, Nat.zero_le maxBO, by simp [Sec.samples]⟩
      have hA := pass_counter_sec (Sec.node (s0 :: rest) 0 children) none 2 maxBO
      have hB := pass_idx_sec (Sec.node (s0 :: rest) 0 children) none 2 maxBO
      have hC := pass_first_ok_sec (Sec.node (s0 :: rest) 0 children) none 2 maxBO hwf
      simp only [Option.isNone_none] at hA hB
      obtain ⟨e1, e2, e3⟩ := hokD.1
      rw [create_arbor_mesh_reduce s0 rest children maxBO nm mat]
      refine ⟨_, rfl, ?_, ?_, ?_, ?_, ?_, ?_⟩
      · rw [hokD.2, hA]
        omega
      · exact e1.symm
      · exact e2
      · exact e3
      · exact hB
      · exact hC

/-- C4 witness: the spec's own two-level example, a root with three samples
and one child with three samples, yields three plus two true vertices plus
the two auxiliary ones. -/
theorem C4_witness :
    ∃ m, create_arbor_mesh
          (Sec.node
            [{ point := Pt.ofSample 0, radius := 1, arbor_idx := 0 },
             { point := Pt.ofSample 1, radius := 2, arbor_idx := 0 },
             { point := Pt.ofSample 2, radius := 3, arbor_idx := 0 }] 0
            (SecList.cons
              (Sec.node
                [{ point := Pt.ofSample 2, radius := 3, arbor_idx := 0 },
                 { point := Pt.ofSample 3, radius := 4, arbor_idx := 0 },
                 { point := Pt.ofSample 4, radius := 5, arbor_idx := 0 }] 1 SecList.nil)
              SecList.nil))
          5 ("ApicalDendrite") 0 = Except.ok m
      ∧ m.verts.length
          = visited_sample_count
              (Sec.node
                [{ point := Pt.ofSample 0, radius := 1, arbor_idx := 0 },
                 { point := Pt.ofSample 1, radius := 2, arbor_idx := 0 },
                 { point := Pt.ofSample 2, radius := 3, arbor_idx := 0 }] 0
                (SecList.cons
                  (Sec.node
                    [{ point := Pt.ofSample 2, radius := 3, arbor_idx := 0 },
                     { point := Pt.ofSample 3, radius := 4, arbor_idx := 0 },
                     { point := Pt.ofSample 4, radius := 5, arbor_idx := 0 }] 1 SecList.nil)
                  SecList.nil))
              5 true + 2
      ∧ m.edges.length + 1 = m.verts.length
      ∧ m.edges.map Prod.snd = List.range' 1 m.edges.length
      ∧ (∀ e ∈ m.edges, e.1 < e.2)
      ∧ visited_idx_list
          (update_samples_indices_sec
            (Sec.node
              [{ point := Pt.ofSample 0, radius := 1, arbor_idx := 0 },
               { point := Pt.ofSample 1, radius := 2, arbor_idx := 0 },
               { point := Pt.ofSample 2, radius := 3, arbor_idx := 0 }] 0
              (SecList.cons
                (Sec.node
                  [{ point := Pt.ofSample 2, radius := 3, arbor_idx := 0 },
                   { point := Pt.ofSample 3, radius := 4, arbor_idx := 0 },
                   { point := Pt.ofSample 4, radius := 5, arbor_idx := 0 }] 1 SecList.nil)
                SecList.nil))
            none 2 5).1 5 true
          = List.range' 2
              (visited_sample_count
                (Sec.node
                  [{ point := Pt.ofSample 0, radius := 1, arbor_idx := 0 },
                   { point := Pt.ofSample 1, radius := 2, arbor_idx := 0 },
                   { point := Pt.ofSample 2, radius := 3, arbor_idx := 0 }] 0
                  (SecList.cons
                    (Sec.node
                      [{ point := Pt.ofSample 2, radius := 3, arbor_idx := 0 },
                       { point := Pt.ofSample 3, radius := 4, arbor_idx := 0 },
                       { point := Pt.ofSample 4, radius := 5, arbor_idx := 0 }] 1 SecList.nil)
                    SecList.nil))
                5 true)
      ∧ first_idx_ok
          (update_samples_indices_sec
            (Sec.node
              [{ point := Pt.ofSample 0, radius := 1, arbor_idx := 0 },
               { point := Pt.ofSample 1, radius := 2, arbor_idx := 0 },
               { point := Pt.ofSample 2, radius := 3, arbor_idx := 0 }] 0
              (SecList.cons
                (Sec.node
                  [{ point := Pt.ofSample 2, radius := 3, arbor_idx := 0 },
                   { point := Pt.ofSample 3, radius := 4, arbor_idx := 0 },
                   { point := Pt.ofSample 4, radius := 5, arbor_idx := 0 }] 1 SecList.nil)
                SecList.nil))
            none 2 5).1 none 5 = true :=
  C4_curve_construction_graph _ 5 ("ApicalDendrite") 0 (by decide) (by decide)

/-! ### C10: the auxiliary vertices receive the first sample's radius -/

mutual

/-- The radius pass leaves every skin vertex outside the visited arbor
indices untouched. -/
theorem update_arbor_radii_outside (skin_radii : Nat → ℚ × ℚ) (s : Sec) (maxBO : Nat)
    (ir : Bool) (v : Nat) (hv : v ∉ visited_idx_list s maxBO ir) :
    update_arbor_samples_radii skin_radii s maxBO ir v = skin_radii v := by
  cases s with
  | node samples bo children =>
    by_cases hbo : bo > maxBO
    · simp [update_arbor_samples_radii, hbo]
    · simp only [visited_idx_list, if_neg hbo, List.mem_append, not_or] at hv
      simp only [update_arbor_samples_radii, if_neg hbo]
      rw [update_children_radii_outside
        (update_section_samples_radii skin_radii (Sec.node samples bo children) ir)
        children maxBO v hv.2]
      have hv1 : v ∉ ((Sec.node samples bo children).samples.drop
          (if ir then 0 else 1)).map Sample.arbor_idx := by
        cases ir <;> simpa [Sec.samples] using hv.1
      exact foldl_radius_update_not_mem skin_radii _ v hv1

theorem update_children_radii_outside (skin_radii : Nat → ℚ × ℚ) (l : SecList) (maxBO : Nat)
    (v : Nat) (hv : v ∉ visited_idx_list_children l maxBO) :
    update_arbor_children_radii skin_radii l maxBO v = skin_radii v := by
  cases l with
  | nil => rfl
  | cons hd tl =>
    simp only [visited_idx_list_children, List.mem_append, not_or] at hv
    simp only [update_arbor_children_radii]
    rw [update_children_radii_outside
        (update_arbor_samples_radii skin_radii hd maxBO false) tl maxBO v hv.2,
      update_arbor_radii_outside skin_radii hd maxBO false v hv.1]

end

/-- C10: for a well-formed arbor, both auxiliary skin vertices (indices 0
and 1) end up with both symmetric radius components equal to the first true
sample's radius at the moment the skin modifier is applied: the radius
pass, whose visited arbor indices all start at 2, never overwrites them,
so they are not left with the temporary placeholder radius. -/
theorem C10_auxiliary_vertex_radii (arbor : Sec) (maxBO : Nat) (nm : String) (mat : Nat)
    (hwf : wf_nonempty arbor = true) (hroot : arbor.branching_order = 0) :
    ∃ m s0, arbor.samples.head? = some s0
      ∧ create_arbor_mesh arbor maxBO nm mat = Except.ok m
      ∧ m.skin_radii 0 = (s0.radius, s0.radius)
      ∧ m.skin_radii 1 = (s0.radius, s0.radius) := by
  cases arbor with
  | node samples bo children =>
    simp only [Sec.branching_order] at hroot
    subst hroot
    have hwf2 := hwf
    simp only [wf_nonempty, Bool.and_eq_true] at hwf2
    obtain ⟨hne, hwfc⟩ := hwf2
    cases samples with
    | nil => simp at hne
    | cons s0 rest =>
      have hB := pass_idx_sec (Sec.node (s0 :: rest) 0 children) none 2 maxBO
      simp only [Option.isNone_none] at hB
      have h0 : (0 : Nat) ∉ visited_idx_list
          (update_samples_indices_sec (Sec.node (s0 :: rest) 0 children) none 2 maxBO).1
          maxBO true := by
        rw [hB]
        simp [List.mem_range'_1]
      have h1 : (1 : Nat) ∉ visited_idx_list
          (update_samples_indices_sec (Sec.node (s0 :: rest) 0 children) none 2 maxBO).1
          maxBO true := by
        rw [hB]
        simp [List.mem_range'_1]
      rw [create_arbor_mesh_reduce s0 rest children maxBO nm mat]
      refine ⟨_, s0, rfl, rfl, ?_, ?_⟩
      · dsimp only
        rw [update_arbor_radii_outside _ _ maxBO true 0 h0]
        rw [Function.update_noteq (by decide), Function.update_same]
      · dsimp only
        rw [update_arbor_radii_outside _ _ maxBO true 1 h1]
        rw [Function.update_same]

/-- C10 witness: on a concrete two-sample arbor the two auxiliary skin
vertices carry the first sample's radius. -/
theorem C10_witness :
    ∃ m s0,
      (Sec.node [{ point := Pt.ofSample 0, radius := 7, arbor_idx := 0 },
                 { point := Pt.ofSample 1, radius := 9, arbor_idx := 0 }] 0
        SecList.nil).samples.head? = some s0
      ∧ create_arbor_mesh
          (Sec.node [{ point := Pt.ofSample 0, radius := 7, arbor_idx := 0 },
                     { point := Pt.ofSample 1, radius := 9, arbor_idx := 0 }] 0
            SecList.nil) 3 ("Axon") 1 = Except.ok m
      ∧ m.skin_radii 0 = (s0.radius, s0.radius)
      ∧ m.skin_radii 1 = (s0.radius, s0.radius) :=
  C10_auxiliary_vertex_radii _ 3 ("Axon") 1 (by decide) (by decide)

/-! ### C5: pruning exactness of both tree walks -/

mutual

/-- The bounded extrusion walk processes exactly the pruned tree. -/
theorem extrude_eq_pruned_sec (b : Bmesh) (s : Sec) (maxBO : Nat) :
    extrude_arbor b s maxBO = (pruneSec maxBO s).elim b (extrude_all b) := by
  cases s with
  | node samples bo children =>
    by_cases hbo : bo > maxBO
    · simp [extrude_arbor, pruneSec, hbo]
    · simp only [extrude_arbor, if_neg hbo, pruneSec, Option.elim, extrude_all]
      exact extrude_eq_pruned_list (extrude_section b (Sec.node samples bo children)) children maxBO

theorem extrude_eq_pruned_list (b : Bmesh) (l : SecList) (maxBO : Nat) :
    extrude_arbor_children b l maxBO = extrude_all_children b (pruneChildren maxBO l) := by
  cases l with
  | nil => rfl
  | cons hd tl =>
    have hsec := extrude_eq_pruned_sec b hd maxBO
    cases hp : pruneSec maxBO hd with
    | none =>
      rw [hp] at hsec
      simp only [Option.elim] at hsec
      simp only [extrude_arbor_children, pruneChildren, hp, hsec]
      exact extrude_eq_pruned_list b tl maxBO
    | some h2 =>
      rw [hp] at hsec
      simp only [Option.elim] at hsec
      simp only [extrude_arbor_children, pruneChildren, hp, hsec, extrude_all_children]
      exact extrude_eq_pruned_list (extrude_all b h2) tl maxBO

end

mutual

/-- The bounded radius-assignment walk processes exactly the pruned tree. -/
theorem radii_eq_pruned_sec (skin_radii : Nat → ℚ × ℚ) (s : Sec) (maxBO : Nat) (ir : Bool) :
    update_arbor_samples_radii skin_radii s maxBO ir
      = (pruneSec maxBO s).elim skin_radii
          (fun t => update_all_samples_radii skin_radii t ir) := by
  cases s with
  | node samples bo children =>
    by_cases hbo : bo > maxBO
    · simp [update_arbor_samples_radii, pruneSec, hbo]
    · simp only [update_arbor_samples_radii, if_neg hbo, pruneSec, Option.elim,
        update_all_samples_radii]
      exact radii_eq_pruned_list
        (update_section_samples_radii skin_radii (Sec.node samples bo children) ir)
        children maxBO

theorem radii_eq_pruned_list (skin_radii : Nat → ℚ × ℚ) (l : SecList) (maxBO : Nat) :
    update_arbor_children_radii skin_radii l maxBO
      = update_all_children_radii skin_radii (pruneChildren maxBO l) := by
  cases l with
  | nil => rfl
  | cons hd tl =>
    have hsec := radii_eq_pruned_sec skin_radii hd maxBO false
    cases hp : pruneSec maxBO hd with
    | none =>
      rw [hp] at hsec
      simp only [Option.elim] at hsec
      simp only [update_arbor_children_radii, pruneChildren, hp, hsec]
      exact radii_eq_pruned_list skin_radii tl maxBO
    | some h2 =>
      rw [hp] at hsec
      simp only [Option.elim] at hsec
      simp only [update_arbor_children_radii, pruneChildren, hp, hsec,
        update_all_children_radii]
      exact radii_eq_pruned_list (update_all_samples_radii skin_radii h2 false) tl maxBO

end

mutual

/-- In a tree where every child's branching order is its parent's plus one,
every section's order is at least the root's. -/
theorem all_orders_lower_sec (s : Sec) (hwf : wf_orders s = true) :
    ∀ x ∈ all_orders s, s.branching_order ≤ x := by
  cases s with
  | node samples bo children =>
    intro x hx
    simp only [all_orders, List.mem_cons] at hx
    rcases hx with rfl | hx
    · exact le_refl x
    · simp only [wf_orders] at hwf
      exact le_trans (Nat.le_succ bo) (all_orders_lower_list children (bo + 1) hwf x hx)

theorem all_orders_lower_list (l : SecList) (b : Nat) (hwf : wf_orders_children l b = true) :
    ∀ x ∈ all_orders_children l, b ≤ x := by
  cases l with
  | nil => intro x hx; cases hx
  | cons hd tl =>
    simp only [wf_orders_children, Bool.and_eq_true, beq_iff_eq] at hwf
    intro x hx
    simp only [all_orders_children, List.mem_append] at hx
    rcases hx with hx | hx
    · rw [← hwf.1.1]
      exact all_orders_lower_sec hd hwf.1.2 x hx
    · exact all_orders_lower_list tl b hwf.2 x hx

end

mutual

/-- The branching orders of the pruned tree are exactly the branching
orders of the original tree that stay within the limit. -/
theorem prune_orders_sec (s : Sec) (maxBO : Nat) (hwf : wf_orders s = true) :
    (pruneSec maxBO s).elim [] all_orders
      = (all_orders s).filter (fun x => decide (x ≤ maxBO)) := by
  cases s with
  | node samples bo children =>
    by_cases hbo : bo > maxBO
    · simp only [pruneSec, if_pos hbo, Option.elim]
      symm
      rw [List.filter_eq_nil_iff]
      intro x hx
      have := all_orders_lower_sec (Sec.node samples bo children) hwf x hx
      simp only [Sec.branching_order] at this
      simp only [decide_eq_true_eq]
      omega
    · simp only [pruneSec, if_neg hbo, Option.elim, all_orders, List.filter_cons]
      have hko : decide (bo ≤ maxBO) = true := by simp; omega
      rw [hko]
      simp only [wf_orders] at hwf
      rw [prune_orders_list children (bo + 1) maxBO hwf]
      simp

theorem prune_orders_list (l : SecList) (b maxBO : Nat)
    (hwf : wf_orders_children l b = true) :
    all_orders_children (pruneChildren maxBO l)
      = (all_orders_children l).filter (fun x => decide (x ≤ maxBO)) := by
  cases l with
  | nil => rfl
  | cons hd tl =>
    simp only [wf_orders_children, Bool.and_eq_true, beq_iff_eq] at hwf
    have hsec := prune_orders_sec hd maxBO hwf.1.2
    have htl := prune_orders_list tl b maxBO hwf.2
    cases hp : pruneSec maxBO hd with
    | none =>
      rw [hp] at hsec
      simp only [Option.elim] at hsec
      simp only [pruneChildren, hp, all_orders_children, List.filter_append, ← hsec, htl,
        List.nil_append]
    | some h2 =>
      rw [hp] at hsec
      simp only [Option.elim] at hsec
      simp only [pruneChildren, hp, all_orders_children, List.filter_append, ← hsec, htl]

end

/-- C5: the extrusion pass and the radius-assignment pass both process
exactly the pruned tree: a section whose branching order exceeds the limit
is not processed and neither is any of its descendants (the walks return
their input unchanged on such a section), and under the branching-order
well-formedness of the data model the sections of the pruned tree are
exactly the sections of the original tree whose branching order is at most
the limit (compared as the multiset of branching orders), so no graph
vertex or radius write originates from a section beyond the limit. -/
theorem C5_branching_order_pruning (b : Bmesh) (skin_radii : Nat → ℚ × ℚ) (s : Sec)
    (maxBO : Nat) (ir : Bool) :
    extrude_arbor b s maxBO = (pruneSec maxBO s).elim b (extrude_all b)
    ∧ update_arbor_samples_radii skin_radii s maxBO ir
        = (pruneSec maxBO s).elim skin_radii
            (fun t => update_all_samples_radii skin_radii t ir)
    ∧ (s.branching_order > maxBO →
        extrude_arbor b s maxBO = b
        ∧ update_arbor_samples_radii skin_radii s maxBO ir = skin_radii)
    ∧ (wf_orders s = true →
        (pruneSec maxBO s).elim [] all_orders
          = (all_orders s).filter (fun x => decide (x ≤ maxBO))) := by
  refine ⟨extrude_eq_pruned_sec b s maxBO, radii_eq_pruned_sec skin_radii s maxBO ir,
    ?_, prune_orders_sec s maxBO⟩
  intro hbo
  cases s with
  | node samples bo children =>
    simp only [Sec.branching_order] at hbo
    constructor
    · simp [extrude_arbor, hbo]
    · simp [update_arbor_samples_radii, hbo]

/-- C5 witness: on a concrete three-level arbor with orders 0, 1 and 2 and
limit 1, the walks process exactly the pruned tree, a beyond-limit section
is a no-op for both walks, and the pruned orders are exactly those at
most 1. -/
theorem C5_witness :
    (extrude_arbor create_vertex
        (Sec.node [{ point := Pt.ofSample 0, radius := 1, arbor_idx := 2 }] 0
          (SecList.cons
            (Sec.node [{ point := Pt.ofSample 1, radius := 1, arbor_idx := 3 }] 1
              (SecList.cons
                (Sec.node [{ point := Pt.ofSample 2, radius := 1, arbor_idx := 4 }] 2
                  SecList.nil)
                SecList.nil))
            SecList.nil))
        1
      = (pruneSec 1
          (Sec.node [{ point := Pt.ofSample 0, radius := 1, arbor_idx := 2 }] 0
            (SecList.cons
              (Sec.node [{ point := Pt.ofSample 1, radius := 1, arbor_idx := 3 }] 1
                (SecList.cons
                  (Sec.node [{ point := Pt.ofSample 2, radius := 1, arbor_idx := 4 }] 2
                    SecList.nil)
                  SecList.nil))
              SecList.nil))).elim create_vertex (extrude_all create_vertex))
    ∧ (wf_orders
        (Sec.node [{ point := Pt.ofSample 0, radius := 1, arbor_idx := 2 }] 0
          (SecList.cons
            (Sec.node [{ point := Pt.ofSample 1, radius := 1, arbor_idx := 3 }] 1
              (SecList.cons
                (Sec.node [{ point := Pt.ofSample 2, radius := 1, arbor_idx := 4 }] 2
                  SecList.nil)
                SecList.nil))
            SecList.nil)) = true →
      (pruneSec 1
          (Sec.node [{ point := Pt.ofSample 0, radius := 1, arbor_idx := 2 }] 0
            (SecList.cons
              (Sec.node [{ point := Pt.ofSample 1, radius := 1, arbor_idx := 3 }] 1
                (SecList.cons
                  (Sec.node [{ point := Pt.ofSample 2, radius := 1, arbor_idx := 4 }] 2
                    SecList.nil)
                  SecList.nil))
              SecList.nil))).elim [] all_orders
        = (all_orders
            (Sec.node [{ point := Pt.ofSample 0, radius := 1, arbor_idx := 2 }] 0
              (SecList.cons
                (Sec.node [{ point := Pt.ofSample 1, radius := 1, arbor_idx := 3 }] 1
                  (SecList.cons
                    (Sec.node [{ point := Pt.ofSample 2, radius := 1, arbor_idx := 4 }] 2
                      SecList.nil)
                    SecList.nil))
                SecList.nil))).filter (fun x => decide (x ≤ 1)))
    ∧ ((Sec.node [{ point := Pt.ofSample 2, radius := 1, arbor_idx := 4 }] 2
          SecList.nil).branching_order > 1 →
        extrude_arbor create_vertex
          (Sec.node [{ point := Pt.ofSample 2, radius := 1, arbor_idx := 4 }] 2 SecList.nil) 1
          = create_vertex) := by
  refine ⟨?_, ?_, ?_⟩
  · exact (C5_branching_order_pruning create_vertex (fun _ => (0, 0)) _ 1 true).1
  · exact (C5_branching_order_pruning create_vertex (fun _ => (0, 0)) _ 1 true).2.2.2
  · intro hgt
    exact ((C5_branching_order_pruning create_vertex (fun _ => (0, 0)) _ 1 true).2.2.1 hgt).1

end NMV
